import Mathlib

/-!
Verification of the bridging core of `src/rocketchat/rocketchat.js`
(RocketChat → IRC gateway).  JavaScript strings are modelled as lists of
characters, the `this.rooms` id-keyed object as an insertion-ordered list
of room records, and the mutable instance fields as an explicit state
record threaded through the operations.
-/

set_option autoImplicit false

namespace RocketChat

/-- JavaScript strings are modelled as lists of characters. -/
abbrev Str : Type := List Char

/-- Turn a Lean string literal into the `Str` model. -/
def str (s : String) : Str := s.toList

/-- `MESSAGE_CACHE_SIZE = 50` (source line 16). -/
def MESSAGE_CACHE_SIZE : Nat := 50

/-- `HIGHLIGHT_TERMS = ["@here", "@channel", "@everyone", "@all"]` (source line 18). -/
def HIGHLIGHT_TERMS : List Str :=
  [str "@here", str "@channel", str "@everyone", str "@all"]

/-- A room record: the fields of a `this.rooms` entry that the bridging logic
reads (`_id`, `name`, `t`). -/
structure Room where
  _id : Str
  name : Str
  t : Str
deriving DecidableEq, Repr

/-- An incoming stream message payload: the fields of `msg` that `onMessage`
reads (`_id`, `rid`, `msg`, `u.username`). -/
structure Message where
  _id : Str
  rid : Str
  msg : Str
  username : Str
deriving DecidableEq, Repr

/-- A `messageCache` entry.  The cache is only ever consulted through the
`_id` and `msg` fields (the `_.find` scan and the text comparison), so an
entry is modelled by exactly those two fields. -/
structure CacheEntry where
  _id : Str
  msg : Str
deriving DecidableEq, Repr

/-- The instance state of a `RocketChat` object that the verified operations
touch: `this.client` (whether the DDP client field is set), `this.rooms`
(insertion-ordered), `this.userStatuses`, `this.messageCache` (oldest entry
first; `push` appends at the end, `shift` drops the head) and the sink
connection's `loginNick`. -/
structure RCState where
  client : Bool
  rooms : List Room
  userStatuses : List (Str × Bool)
  messageCache : List CacheEntry
  loginNick : Str
deriving DecidableEq, Repr

/-- `this.rooms[msg.rid]`: lookup of a room by its `_id` key. -/
def lookupRoomById (rooms : List Room) (rid : Str) : Option Room :=
  rooms.find? (fun r => r._id == rid)

/-- `getRoomPrefix(room)` (source lines 187-189):
`room.t === "c" ? "#" : "##"`. -/
def getRoomPrefix (room : Room) : Str :=
  if room.t == str "c" then str "#" else str "##"

/-- `getIRCChannelName(room)` (source lines 183-185): prefix followed by the
room's name. -/
def getIRCChannelName (room : Room) : Str :=
  getRoomPrefix room ++ room.name

/-- `channel.replace(/^##?/, "")`: strip one or two leading `#` characters
(greedy, anchored at the start). -/
def stripHashes : Str → Str
  | '#' :: '#' :: rest => rest
  | '#' :: rest => rest
  | s => s

/-- `s.startsWith(p)` on the `Str` model. -/
def hasStart : Str → Str → Bool
  | _, [] => true
  | [], _ :: _ => false
  | c :: cs, p :: ps => c == p && hasStart cs ps

/-- `getRoomFromIRCChannel(channel)` (source lines 171-181): derive the
intended type from the `#` prefix, strip it, and scan `this.rooms` for the
first room matching `{ name, t }`. -/
def getRoomFromIRCChannel (rooms : List Room) (channel : Str) : Option Room :=
  let t : Str :=
    if hasStart channel (str "##") then str "p"
    else if !hasStart channel (str "#") then str "d"
    else str "c"
  let name := stripHashes channel
  rooms.find? (fun r => r.name == name && r.t == t)

/-- `s.includes(sub)` on the `Str` model: `sub` occurs as a contiguous
substring of `s`. -/
def jsIncludes : Str → Str → Bool
  | [], sub => hasStart [] sub
  | c :: cs, sub => hasStart (c :: cs) sub || jsIncludes cs sub

/-- The per-line highlight flag of `onMessage` (source lines 241-245): a
mutable boolean initialised to `false` and or-ed with `line.includes(term)`
over `HIGHLIGHT_TERMS`. -/
def highlightOf (line : Str) : Bool :=
  HIGHLIGHT_TERMS.foldl (fun h term => h || jsIncludes line term) false

/-- `msg.msg.split("\n")`: split on every newline, keeping empty fragments,
always yielding at least one fragment. -/
def splitNl : Str → List Str
  | [] => [[]]
  | c :: cs =>
    if c == '\n' then [] :: splitNl cs
    else
      match splitNl cs with
      | [] => [[c]]
      | l :: ls => (c :: l) :: ls

/-- The `"[EDIT] "` edit-marker prefix text (source line 247); the
`irc.lightgrey()` colouring is presentational and not modelled. -/
def editMarker : Str := str "[EDIT] "

/-- The `` ` (cc: ${this.connection.loginNick})` `` highlight suffix text
(source line 248); the `irc.red()` colouring is presentational and not
modelled. -/
def ccSuffix (loginNick : Str) : Str :=
  str " (cc: " ++ loginNick ++ str ")"

/-- One `sendPacket("privmsg", channel, nick, content)` call emitted to the
sink connection (source line 250). -/
structure OutLine where
  channel : Str
  nick : Str
  content : Str
deriving DecidableEq, Repr

/-- The per-line output composition of `onMessage` (source lines 240-250):
`${prefix}${line}${suffix}` with the edit marker when `edit` is set and the
cc-suffix when the line's highlight flag is set. -/
def renderLine (edit : Bool) (loginNick channel nick : Str) (line : Str) : OutLine :=
  { channel := channel
    nick := nick
    content :=
      (if edit then editMarker else []) ++ line ++
        (if highlightOf line then ccSuffix loginNick else []) }

/-- `this.messageCache.push(e)` followed by
`if (this.messageCache.length > MESSAGE_CACHE_SIZE) this.messageCache.shift()`
(source lines 237-238 and 261-262). -/
def cachePush (cache : List CacheEntry) (e : CacheEntry) : List CacheEntry :=
  let c := cache ++ [e]
  if MESSAGE_CACHE_SIZE < c.length then c.tail else c

/-- `_.find(this.messageCache, { _id: mid })`: first cache entry with the
given message id. -/
def cacheFind (cache : List CacheEntry) (mid : Str) : Option CacheEntry :=
  cache.find? (fun e => e._id == mid)

/-- `onMessage(msg)` (source lines 224-252).  Looking up an unknown
`msg.rid` leaves `room` undefined and `getIRCChannelName(room)` raises a
`TypeError`; that is modelled as `.error ()`.  Otherwise the result is the
updated state together with the list of `privmsg` packets sent to the sink,
in order. -/
def onMessage (s : RCState) (m : Message) : Except Unit (RCState × List OutLine) :=
  match lookupRoomById s.rooms m.rid with
  | none => .error ()
  | some room =>
    let channel := getIRCChannelName room
    let nick := m.username
    let emit : Bool → RCState × List OutLine := fun edit =>
      ({ s with messageCache := cachePush s.messageCache ⟨m._id, m.msg⟩ },
       (splitNl m.msg).map (fun line => renderLine edit s.loginNick channel nick line))
    match cacheFind s.messageCache m._id with
    | some oldMsg =>
      if oldMsg.msg == m.msg then .ok (s, [])
      else .ok (emit true)
    | none => .ok (emit false)

/-- The state `onMessage` leaves behind (unchanged when the `TypeError` is
raised, since the raise happens before any mutation). -/
def okState (s : RCState) (m : Message) : RCState :=
  match onMessage s m with
  | .ok (s', _) => s'
  | .error _ => s

/-- The `privmsg` packets `onMessage` emits (none when the `TypeError` is
raised). -/
def okOut (s : RCState) (m : Message) : List OutLine :=
  match onMessage s m with
  | .ok (_, out) => out
  | .error _ => []

/-- The remote call issued by `sendMessage` (source line 264): the message
object `{ _id: mdbid(), rid: room._id, msg }` passed to
`call("sendMessage", msgObj)`. -/
structure RemoteSend where
  _id : Str
  rid : Str
  msg : Str
deriving DecidableEq, Repr

/-- `sendMessage(room, msg)` (source lines 254-265).  The fresh `mdbid()`
identifier is an input (`newId`).  The cache entry is inserted under the
same push-then-shift bound as `onMessage`, and the remote call is
fire-and-forget. -/
def sendMessage (s : RCState) (room : Room) (newId : Str) (msg : Str) :
    RCState × RemoteSend :=
  ({ s with messageCache := cachePush s.messageCache ⟨newId, msg⟩ },
   ⟨newId, room._id, msg⟩)

/-- A decoded raw frame, as classified by `onRawMessage` (source lines
208-222): frames that fail to parse, parsed frames that are not a `changed`
event on `stream-room-messages`, and `stream-room-messages` change frames
carrying `msg.fields.args`. -/
inductive Frame where
  | malformed : Frame
  | other : Frame
  | roomMessages (args : List Message) : Frame
deriving DecidableEq, Repr

/-- The observable result of distributing one frame (or a batch of frames):
the final state, the `privmsg` packets emitted in order, and the number of
`log.error` calls made by the inner `catch`. -/
structure StepResult where
  state : RCState
  out : List OutLine
  errs : Nat
deriving DecidableEq, Repr

/-- `msg.fields.args.forEach(this.onMessage.bind(this))` inside the inner
`try` (source lines 215-219): messages are processed left to right; the
first exception aborts the `forEach` and is logged once by the `catch`. -/
def runArgs (s : RCState) : List Message → StepResult
  | [] => ⟨s, [], 0⟩
  | m :: ms =>
    match onMessage s m with
    | .error _ => ⟨s, [], 1⟩
    | .ok (s', out) =>
      let r := runArgs s' ms
      ⟨r.state, out ++ r.out, r.errs⟩

/-- `onRawMessage(msg)` (source lines 208-222): parse failures are silently
ignored by the outer `catch`, frames that are not `stream-room-messages`
changes are ignored, and message batches are distributed with the inner
`try`/`catch`. -/
def onRawMessage (s : RCState) : Frame → StepResult
  | .malformed => ⟨s, [], 0⟩
  | .other => ⟨s, [], 0⟩
  | .roomMessages args => runArgs s args

/-- Combine the results of two successive processing steps. -/
def combineStep (a b : StepResult) : StepResult :=
  ⟨b.state, a.out ++ b.out, a.errs + b.errs⟩

/-- Distribute a sequence of incoming frames: each frame is handled by
`onRawMessage` and processing always continues with the next frame. -/
def processFrames (s : RCState) : List Frame → StepResult
  | [] => ⟨s, [], 0⟩
  | f :: fs => combineStep (onRawMessage s f) (processFrames (onRawMessage s f).state fs)

/-- The transport-level actions `connect()` and `disconnect()` perform.  The
bootstrap steps after `this.client` is assigned (source lines 41-64) depend
on server responses, so they are recorded as emitted actions rather than
interpreted. -/
inductive Action where
  | createClient : Action
  | transportConnect : Action
  | loginCall : Action
  | updateMe : Action
  | subscribeDefault : Action
  | observeDefault : Action
  | updateRooms : Action
  | joinDefaultRooms : Action
  | closeTransport : Action
deriving DecidableEq, Repr

/-- `connect()` (source lines 38-65): `if (this.client) return;` — when the
client field is already set, nothing happens at all; otherwise the client
field is assigned and the bootstrap sequence runs. -/
def connect (s : RCState) : RCState × List Action :=
  if s.client then (s, [])
  else
    ({ s with client := true },
     [.createClient, .transportConnect, .loginCall, .updateMe, .subscribeDefault,
      .observeDefault, .updateRooms, .joinDefaultRooms])

/-- `disconnect()` (source lines 202-206): closes the transport when
`this.client` is set, but never clears the `client` field. -/
def disconnect (s : RCState) : RCState × List Action :=
  if s.client then (s, [.closeTransport]) else (s, [])

/-- Concrete fixture: a public room, used to instantiate the theorems on
concrete inputs. -/
def roomC : Room := ⟨str "r1", str "general", str "c"⟩

/-- Concrete fixture: a connected session state whose room list holds
`roomC` and whose message cache is the given list. -/
def stateWith (cache : List CacheEntry) : RCState :=
  ⟨true, [roomC], [], cache, str "me"⟩

/-- Concrete fixture: a full `MESSAGE_CACHE_SIZE`-entry cache with pairwise
distinct single-character ids. -/
def bigCache : List CacheEntry :=
  (List.range MESSAGE_CACHE_SIZE).map (fun n => ⟨[Char.ofNat (65 + n)], str "t"⟩)

/-- Concrete fixture: `bigCache` without its oldest entry. -/
def bigCacheRest : List CacheEntry :=
  (List.range 49).map (fun n => ⟨[Char.ofNat (66 + n)], str "t"⟩)

/-! Helper lemmas. -/

theorem length_cachePush_le (cache : List CacheEntry) (e : CacheEntry)
    (h : cache.length ≤ MESSAGE_CACHE_SIZE) :
    (cachePush cache e).length ≤ MESSAGE_CACHE_SIZE := by
  unfold cachePush
  by_cases hc : MESSAGE_CACHE_SIZE < (cache ++ [e]).length
  · rw [if_pos hc, List.length_tail, List.length_append]
    simp only [List.length_singleton]
    omega
  · rw [if_neg hc]
    omega

theorem splitNl_ne_nil (t : Str) : splitNl t ≠ [] := by
  induction t with
  | nil => simp [splitNl]
  | cons c cs ih =>
    rw [splitNl]
    split
    · simp
    · split <;> simp

theorem splitNl_length (t : Str) : (splitNl t).length = t.count '\n' + 1 := by
  induction t with
  | nil => simp [splitNl]
  | cons c cs ih =>
    rw [splitNl]
    by_cases h : c = '\n'
    · subst h
      rw [if_pos (by simp)]
      simp [List.count_cons, ih]
    · rw [if_neg (by simp [h])]
      cases hs : splitNl cs with
      | nil => exact absurd hs (splitNl_ne_nil cs)
      | cons l ls =>
        rw [hs] at ih
        simp only [List.length_cons] at ih ⊢
        simp [List.count_cons, h, ih]

theorem hasStart_iff (s p : Str) : hasStart s p = true ↔ ∃ r, s = p ++ r := by
  induction p generalizing s with
  | nil =>
    simp only [List.nil_append]
    constructor
    · intro _; exact ⟨s, rfl⟩
    · intro _; cases s <;> rfl
  | cons a ps ih =>
    cases s with
    | nil =>
      simp only [hasStart, List.cons_append]
      constructor
      · intro h; cases h
      · rintro ⟨r, h⟩; cases h
    | cons c cs =>
      simp only [hasStart, Bool.and_eq_true, beq_iff_eq, ih, List.cons_append]
      constructor
      · rintro ⟨rfl, r, rfl⟩; exact ⟨r, rfl⟩
      · rintro ⟨r, h⟩
        injection h with h1 h2
        exact ⟨h1, r, h2⟩

theorem jsIncludes_iff (s sub : Str) :
    jsIncludes s sub = true ↔ ∃ p q, s = p ++ sub ++ q := by
  induction s with
  | nil =>
    simp only [jsIncludes, hasStart_iff]
    constructor
    · rintro ⟨r, h⟩; exact ⟨[], r, by simpa using h⟩
    · rintro ⟨p, q, h⟩
      have h' := h.symm
      rw [List.append_eq_nil] at h'
      obtain ⟨h1, h2⟩ := h'
      rw [List.append_eq_nil] at h1
      exact ⟨[], by simp [h1.2]⟩
  | cons c cs ih =>
    simp only [jsIncludes, Bool.or_eq_true, hasStart_iff, ih]
    constructor
    · rintro (⟨r, h⟩ | ⟨p, q, h⟩)
      · exact ⟨[], r, by simpa using h⟩
      · exact ⟨c :: p, q, by simp [h]⟩
    · rintro ⟨p, q, h⟩
      cases p with
      | nil => exact Or.inl ⟨q, by simpa using h⟩
      | cons a p' =>
        right
        injection h with h1 h2
        exact ⟨p', q, h2⟩

theorem foldl_or_any (f : Str → Bool) (l : List Str) (b : Bool) :
    l.foldl (fun h t => h || f t) b = (b || l.any f) := by
  induction l generalizing b with
  | nil => simp
  | cons a as ih => simp [List.foldl_cons, ih, Bool.or_assoc]

theorem highlightOf_iff (L : Str) :
    highlightOf L = true ↔ ∃ t ∈ HIGHLIGHT_TERMS, ∃ p q, L = p ++ t ++ q := by
  unfold highlightOf
  rw [foldl_or_any]
  simp [List.any_eq_true, jsIncludes_iff]

theorem cacheFind_eq_none (cache : List CacheEntry) (mid : Str) :
    cacheFind cache mid = none ↔ ∀ e ∈ cache, e._id ≠ mid := by
  simp [cacheFind, List.find?_eq_none]

theorem cacheFind_append_of_none {c1 : List CacheEntry} (c2 : List CacheEntry)
    (mid : Str) (h : cacheFind c1 mid = none) :
    cacheFind (c1 ++ c2) mid = cacheFind c2 mid := by
  induction c1 with
  | nil => rfl
  | cons e es ih =>
    rw [cacheFind_eq_none] at h
    have he : (e._id == mid) = false := by
      simpa using h e (List.mem_cons_self e es)
    have hes : cacheFind es mid = none := by
      rw [cacheFind_eq_none]
      exact fun x hx => h x (List.mem_cons_of_mem e hx)
    simp only [List.cons_append, cacheFind, List.find?, he] at *
    exact ih hes

theorem cacheFind_tail_of_none {c : List CacheEntry} (mid : Str)
    (h : cacheFind c mid = none) : cacheFind c.tail mid = none := by
  rw [cacheFind_eq_none] at h ⊢
  exact fun e he => h e (List.mem_of_mem_tail he)

theorem onMessage_unknown {s : RCState} {m : Message}
    (h : lookupRoomById s.rooms m.rid = none) : onMessage s m = .error () := by
  simp [onMessage, h]

theorem onMessage_dup {s : RCState} {m : Message} {room : Room} {old : CacheEntry}
    (hroom : lookupRoomById s.rooms m.rid = some room)
    (hfind : cacheFind s.messageCache m._id = some old)
    (heq : old.msg = m.msg) : onMessage s m = .ok (s, []) := by
  simp [onMessage, hroom, hfind, heq]

theorem onMessage_edit {s : RCState} {m : Message} {room : Room} {old : CacheEntry}
    (hroom : lookupRoomById s.rooms m.rid = some room)
    (hfind : cacheFind s.messageCache m._id = some old)
    (hne : old.msg ≠ m.msg) :
    onMessage s m =
      .ok ({ s with messageCache := cachePush s.messageCache ⟨m._id, m.msg⟩ },
        (splitNl m.msg).map
          (renderLine true s.loginNick (getIRCChannelName room) m.username)) := by
  simp [onMessage, hroom, hfind, hne]

theorem onMessage_new {s : RCState} {m : Message} {room : Room}
    (hroom : lookupRoomById s.rooms m.rid = some room)
    (hfind : cacheFind s.messageCache m._id = none) :
    onMessage s m =
      .ok ({ s with messageCache := cachePush s.messageCache ⟨m._id, m.msg⟩ },
        (splitNl m.msg).map
          (renderLine false s.loginNick (getIRCChannelName room) m.username)) := by
  simp [onMessage, hroom, hfind]

theorem okState_eq_of {s : RCState} {m : Message} {p : RCState × List OutLine}
    (h : onMessage s m = .ok p) : okState s m = p.1 := by
  simp [okState, h]

theorem okOut_eq_of {s : RCState} {m : Message} {p : RCState × List OutLine}
    (h : onMessage s m = .ok p) : okOut s m = p.2 := by
  simp [okOut, h]

theorem onMessage_preserves {s : RCState} {m : Message} {s' : RCState}
    {out : List OutLine} (h : onMessage s m = .ok (s', out)) :
    s'.rooms = s.rooms ∧ s'.loginNick = s.loginNick := by
  simp only [onMessage] at h
  split at h
  · cases h
  · split at h
    · split at h
      · cases h; exact ⟨rfl, rfl⟩
      · cases h; exact ⟨rfl, rfl⟩
    · cases h; exact ⟨rfl, rfl⟩

theorem runArgs_errs_one {args : List Message} (s : RCState)
    (h : ∃ m ∈ args, lookupRoomById s.rooms m.rid = none) :
    (runArgs s args).errs = 1 := by
  induction args generalizing s with
  | nil => simp at h
  | cons m0 ms ih =>
    obtain ⟨m, hm, hnone⟩ := h
    cases hom : onMessage s m0 with
    | error e => simp [runArgs, hom]
    | ok p =>
      obtain ⟨s', out⟩ := p
      rcases List.mem_cons.mp hm with hm0 | hms
      · subst hm0
        rw [onMessage_unknown hnone] at hom
        cases hom
      · have hrooms := (onMessage_preserves hom).1
        have hrec : (runArgs s' ms).errs = 1 :=
          ih s' ⟨m, hms, by rw [hrooms]; exact hnone⟩
        simp [runArgs, hom, hrec]

theorem okState_eq_of_error {s : RCState} {m : Message}
    (h : onMessage s m = .error ()) : okState s m = s := by
  simp [okState, h]

theorem okState_messageCache (s : RCState) (m : Message) :
    (okState s m).messageCache = s.messageCache ∨
    (okState s m).messageCache = cachePush s.messageCache ⟨m._id, m.msg⟩ := by
  cases hl : lookupRoomById s.rooms m.rid with
  | none => left; rw [okState_eq_of_error (onMessage_unknown hl)]
  | some room =>
    cases hf : cacheFind s.messageCache m._id with
    | none => right; rw [okState_eq_of (onMessage_new hl hf)]
    | some old =>
      by_cases he : old.msg = m.msg
      · left; rw [okState_eq_of (onMessage_dup hl hf he)]
      · right; rw [okState_eq_of (onMessage_edit hl hf he)]

theorem cacheFind_cachePush {c : List CacheEntry} (e : CacheEntry)
    (h : cacheFind c e._id = none) :
    cacheFind (cachePush c e) e._id = some e := by
  have hsingle : cacheFind [e] e._id = some e := by
    simp [cacheFind, List.find?]
  simp only [cachePush]
  split
  · rename_i hbig
    cases c with
    | nil => simp [MESSAGE_CACHE_SIZE] at hbig
    | cons a as =>
      have htail : ((a :: as) ++ [e]).tail = as ++ [e] := rfl
      rw [htail]
      have has : cacheFind as e._id = none :=
        cacheFind_tail_of_none (c := a :: as) e._id h
      rw [cacheFind_append_of_none [e] e._id has]
      exact hsingle
  · rw [cacheFind_append_of_none [e] e._id h]
    exact hsingle

theorem okOut_emit_cases (s : RCState) (m : Message) :
    okOut s m = [] ∨
    ∃ edit room, lookupRoomById s.rooms m.rid = some room ∧
      okOut s m = (splitNl m.msg).map
        (renderLine edit s.loginNick (getIRCChannelName room) m.username) := by
  cases hl : lookupRoomById s.rooms m.rid with
  | none => left; simp [okOut, onMessage_unknown hl]
  | some room =>
    cases hf : cacheFind s.messageCache m._id with
    | none =>
      right
      exact ⟨false, room, rfl, by rw [okOut_eq_of (onMessage_new hl hf)]⟩
    | some old =>
      by_cases he : old.msg = m.msg
      · left; rw [okOut_eq_of (onMessage_dup hl hf he)]
      · right
        exact ⟨true, room, rfl, by rw [okOut_eq_of (onMessage_edit hl hf he)]⟩

/-! Claim theorems. -/

/-- C1: the claimed `getIRCChannelName` / `getRoomFromIRCChannel` round trip
fails on the code for a registered direct-message room: the direct room
`alice` is mapped to the channel name `##alice`, which
`getRoomFromIRCChannel` resolves as a private-room lookup, so no room (let
alone one with the same name and type) is recovered. -/
theorem claim_C1_roundtrip_fails_on_direct_room :
    getIRCChannelName ⟨str "dm1", str "alice", str "d"⟩ = str "##alice" ∧
    getRoomFromIRCChannel [⟨str "dm1", str "alice", str "d"⟩]
        (getIRCChannelName ⟨str "dm1", str "alice", str "d"⟩) = none :=
  ⟨rfl, rfl⟩

/-- C2: evaluation of `getIRCChannelName` on every room type: a public room
(`t = "c"`) maps to `#` followed by the name and a private room (`t = "p"`)
to `##` followed by the name, as claimed — but a direct room (`t = "d"`)
also maps to `##` followed by the name, not to the bare counterpart name. -/
theorem claim_C2_channel_name_by_type (i n : Str) :
    getIRCChannelName ⟨i, n, str "c"⟩ = str "#" ++ n ∧
    getIRCChannelName ⟨i, n, str "p"⟩ = str "##" ++ n ∧
    getIRCChannelName ⟨i, n, str "d"⟩ = str "##" ++ n :=
  ⟨rfl, rfl, rfl⟩

/-- C3 counterexample: with the cache holding `⟨x1, T1⟩`, the event
`⟨x1, T2⟩` is emitted as an edit, but the cache entry that a scan for `x1`
finds afterwards still carries the old text `T1`: the found entry's text is
not updated to `T2`; a new entry is appended behind it instead. -/
theorem claim_C3_found_entry_not_updated :
    okOut (stateWith [⟨str "x1", str "T1"⟩])
        ⟨str "x1", str "r1", str "T2", str "bob"⟩ =
      [⟨str "#general", str "bob", editMarker ++ str "T2"⟩] ∧
    cacheFind (okState (stateWith [⟨str "x1", str "T1"⟩])
        ⟨str "x1", str "r1", str "T2", str "bob"⟩).messageCache (str "x1") =
      some ⟨str "x1", str "T1"⟩ ∧
    str "T1" ≠ str "T2" :=
  ⟨rfl, rfl, by decide⟩

/-- C3 (amended): if the cache holds an entry for id X (first match `old`)
whose stored text differs from the event's text T2, `onMessage` treats the
event as an edit — every output line carries the `[EDIT] ` marker prefix and
the emitted line texts are exactly the lines of T2 — and a new cache entry
`⟨X, T2⟩` is inserted through the bounded push, no existing entry being
modified. -/
theorem claim_C3_amended_edit_appends (s : RCState) (m : Message) (room : Room)
    (old : CacheEntry)
    (hroom : lookupRoomById s.rooms m.rid = some room)
    (hfind : cacheFind s.messageCache m._id = some old)
    (hne : old.msg ≠ m.msg) :
    onMessage s m =
      .ok ({ s with messageCache := cachePush s.messageCache ⟨m._id, m.msg⟩ },
        (splitNl m.msg).map
          (renderLine true s.loginNick (getIRCChannelName room) m.username)) ∧
    ∀ o ∈ okOut s m, ∃ rest, o.content = editMarker ++ rest := by
  have h := onMessage_edit hroom hfind hne
  refine ⟨h, ?_⟩
  rw [okOut_eq_of h]
  intro o ho
  rw [List.mem_map] at ho
  obtain ⟨line, _, rfl⟩ := ho
  refine ⟨line ++ (if highlightOf line then ccSuffix s.loginNick else []), ?_⟩
  simp [renderLine, List.append_assoc]

/-- C3 amended, instantiated at a concrete edit event. -/
theorem claim_C3_amended_witness :
    onMessage (stateWith [⟨str "x1", str "T1"⟩])
        ⟨str "x1", str "r1", str "T2", str "bob"⟩ =
      .ok ({ (stateWith [⟨str "x1", str "T1"⟩]) with
              messageCache := cachePush [⟨str "x1", str "T1"⟩] ⟨str "x1", str "T2"⟩ },
        (splitNl (str "T2")).map
          (renderLine true (str "me") (getIRCChannelName roomC) (str "bob"))) :=
  (claim_C3_amended_edit_appends (stateWith [⟨str "x1", str "T1"⟩])
    ⟨str "x1", str "r1", str "T2", str "bob"⟩ roomC ⟨str "x1", str "T1"⟩
    rfl rfl (by decide)).1

/-- C4 counterexample: two deliveries of identical events (id `x1`, text
`T2`) while a stale entry `⟨x1, T1⟩` precedes the entry the first delivery
inserted: the first delivery's cache entry `⟨x1, T2⟩` is still present, yet
the second delivery again emits an output line instead of being suppressed,
so the pair produces two output line sequences. -/
theorem claim_C4_redelivery_not_suppressed :
    (⟨str "x1", str "T2"⟩ : CacheEntry) ∈
      (okState (stateWith [⟨str "x1", str "T1"⟩])
        ⟨str "x1", str "r1", str "T2", str "bob"⟩).messageCache ∧
    okOut (okState (stateWith [⟨str "x1", str "T1"⟩])
        ⟨str "x1", str "r1", str "T2", str "bob"⟩)
        ⟨str "x1", str "r1", str "T2", str "bob"⟩ =
      [⟨str "#general", str "bob", editMarker ++ str "T2"⟩] :=
  ⟨by decide, rfl⟩

/-- C4 (amended): dedup idempotence holds whenever the first delivery
inserts the message id as a brand-new cache entry: delivering the same id
and text again while that entry is present produces no output at all and
leaves the state unchanged, so exactly one output line sequence is emitted
for the two deliveries. -/
theorem claim_C4_amended_dedup (s : RCState) (m : Message) (room : Room)
    (hroom : lookupRoomById s.rooms m.rid = some room)
    (hfind : cacheFind s.messageCache m._id = none) :
    okOut s m = (splitNl m.msg).map
        (renderLine false s.loginNick (getIRCChannelName room) m.username) ∧
    onMessage (okState s m) m = .ok (okState s m, []) := by
  have h := onMessage_new hroom hfind
  constructor
  · rw [okOut_eq_of h]
  · rw [okState_eq_of h]
    exact onMessage_dup hroom (cacheFind_cachePush ⟨m._id, m.msg⟩ hfind) rfl

/-- C4 amended, instantiated at a concrete pair of identical events. -/
theorem claim_C4_amended_witness :
    okOut (stateWith []) ⟨str "x1", str "r1", str "T2", str "bob"⟩ =
      (splitNl (str "T2")).map
        (renderLine false (str "me") (getIRCChannelName roomC) (str "bob")) ∧
    onMessage (okState (stateWith []) ⟨str "x1", str "r1", str "T2", str "bob"⟩)
        ⟨str "x1", str "r1", str "T2", str "bob"⟩ =
      .ok (okState (stateWith []) ⟨str "x1", str "r1", str "T2", str "bob"⟩, []) :=
  claim_C4_amended_dedup (stateWith []) ⟨str "x1", str "r1", str "T2", str "bob"⟩
    roomC rfl rfl

/-- C5: the recent-message cache never exceeds `MESSAGE_CACHE_SIZE = 50`
entries: from any state whose cache holds at most 50 entries, both the
`onMessage` insertion path and the outbound `sendMessage` path leave a cache
of at most 50 entries. -/
theorem claim_C5_cache_bounded (s : RCState) (m : Message) (room : Room)
    (newId msg : Str) (h : s.messageCache.length ≤ MESSAGE_CACHE_SIZE) :
    (okState s m).messageCache.length ≤ MESSAGE_CACHE_SIZE ∧
    (sendMessage s room newId msg).1.messageCache.length ≤ MESSAGE_CACHE_SIZE := by
  constructor
  · rcases okState_messageCache s m with hc | hc <;> rw [hc]
    · exact h
    · exact length_cachePush_le _ _ h
  · exact length_cachePush_le _ _ h

/-- C5, instantiated at a concrete state with a one-entry cache. -/
theorem claim_C5_witness :
    (okState (stateWith [⟨str "a", str "t"⟩])
        ⟨str "x1", str "r1", str "T2", str "bob"⟩).messageCache.length ≤
      MESSAGE_CACHE_SIZE ∧
    (sendMessage (stateWith [⟨str "a", str "t"⟩]) roomC (str "z")
        (str "hi")).1.messageCache.length ≤ MESSAGE_CACHE_SIZE :=
  claim_C5_cache_bounded (stateWith [⟨str "a", str "t"⟩])
    ⟨str "x1", str "r1", str "T2", str "bob"⟩ roomC (str "z") (str "hi")
    (by decide)

/-- C6: with the cache at exactly 50 entries, inserting a brand-new message
id evicts exactly the oldest entry (FIFO), and a later event that reuses the
evicted id — which no longer occurs anywhere in the cache — is processed as
a brand-new message: its output lines are rendered without the edit marker
and it is inserted as a fresh cache entry. -/
theorem claim_C6_fifo_eviction (s : RCState) (m1 m2 : Message)
    (room1 room2 : Room) (old : CacheEntry) (rest : List CacheEntry)
    (hcache : s.messageCache = old :: rest)
    (hlen : s.messageCache.length = MESSAGE_CACHE_SIZE)
    (hroom1 : lookupRoomById s.rooms m1.rid = some room1)
    (hnew : cacheFind s.messageCache m1._id = none)
    (_hid2 : m2._id = old._id)
    (hroom2 : lookupRoomById s.rooms m2.rid = some room2)
    (hgone : cacheFind (rest ++ [⟨m1._id, m1.msg⟩]) m2._id = none) :
    (okState s m1).messageCache = rest ++ [⟨m1._id, m1.msg⟩] ∧
    onMessage (okState s m1) m2 =
      .ok ({ s with messageCache :=
               cachePush (rest ++ [⟨m1._id, m1.msg⟩]) ⟨m2._id, m2.msg⟩ },
        (splitNl m2.msg).map
          (renderLine false s.loginNick (getIRCChannelName room2) m2.username)) := by
  have hpush : cachePush s.messageCache ⟨m1._id, m1.msg⟩ =
      rest ++ [⟨m1._id, m1.msg⟩] := by
    have hbig : MESSAGE_CACHE_SIZE <
        (s.messageCache ++ [(⟨m1._id, m1.msg⟩ : CacheEntry)]).length := by
      rw [List.length_append, hlen]
      simp
    simp only [cachePush, if_pos hbig]
    rw [hcache]
    rfl
  have h1 := onMessage_new hroom1 hnew
  have hst : okState s m1 = { s with messageCache := rest ++ [⟨m1._id, m1.msg⟩] } := by
    rw [okState_eq_of h1, hpush]
  refine ⟨by rw [hst], ?_⟩
  rw [hst]
  exact onMessage_new hroom2 hgone

/-- C6, instantiated at a concrete full cache of 50 distinct ids. -/
theorem claim_C6_witness :
    (okState (stateWith bigCache)
        ⟨str "new1", str "r1", str "n", str "bob"⟩).messageCache =
      bigCacheRest ++ [⟨str "new1", str "n"⟩] ∧
    onMessage (okState (stateWith bigCache)
        ⟨str "new1", str "r1", str "n", str "bob"⟩)
        ⟨['A'], str "r1", str "again", str "bob"⟩ =
      .ok ({ (stateWith bigCache) with messageCache := cachePush (bigCacheRest ++ [⟨str "new1", str "n"⟩]) ⟨['A'], str "again"⟩ },
        (splitNl (str "again")).map
          (renderLine false (str "me") (getIRCChannelName roomC) (str "bob"))) :=
  claim_C6_fifo_eviction (stateWith bigCache)
    ⟨str "new1", str "r1", str "n", str "bob"⟩
    ⟨['A'], str "r1", str "again", str "bob"⟩
    roomC roomC ⟨['A'], str "t"⟩ bigCacheRest
    rfl rfl rfl rfl rfl rfl rfl

/-- C7: a `stream-room-messages` frame carrying a message for an unknown
room does not crash the session: the error raised in the handler is caught
at the frame-distribution boundary and logged exactly once (the message is
dropped), and processing continues with the subsequent frames. -/
theorem claim_C7_unknown_room_logged (s : RCState) (args : List Message)
    (fs : List Frame) (h : ∃ m ∈ args, lookupRoomById s.rooms m.rid = none) :
    (onRawMessage s (.roomMessages args)).errs = 1 ∧
    processFrames s (.roomMessages args :: fs) =
      combineStep (onRawMessage s (.roomMessages args))
        (processFrames (onRawMessage s (.roomMessages args)).state fs) :=
  ⟨runArgs_errs_one s h, rfl⟩

/-- C7, instantiated at a concrete frame for an unknown room followed by a
further frame. -/
theorem claim_C7_witness :
    (onRawMessage (stateWith [])
        (.roomMessages [⟨str "x1", str "zz", str "T", str "bob"⟩])).errs = 1 ∧
    processFrames (stateWith [])
        (.roomMessages [⟨str "x1", str "zz", str "T", str "bob"⟩] :: [.other]) =
      combineStep (onRawMessage (stateWith [])
          (.roomMessages [⟨str "x1", str "zz", str "T", str "bob"⟩]))
        (processFrames (onRawMessage (stateWith [])
            (.roomMessages [⟨str "x1", str "zz", str "T", str "bob"⟩])).state
          [.other]) :=
  claim_C7_unknown_room_logged (stateWith [])
    [⟨str "x1", str "zz", str "T", str "bob"⟩] [.other]
    ⟨⟨str "x1", str "zz", str "T", str "bob"⟩, by decide, rfl⟩

/-- C8: a message whose text contains k newline separators and which is not
suppressed by dedup is emitted as exactly k+1 `privmsg` lines, in text
order, every line rendered with the event's edit classification and its own
highlight evaluation. -/
theorem claim_C8_multiline (s : RCState) (m : Message) (room : Room)
    (edit : Bool)
    (hroom : lookupRoomById s.rooms m.rid = some room)
    (hcase : (cacheFind s.messageCache m._id = none ∧ edit = false) ∨
      (∃ old, cacheFind s.messageCache m._id = some old ∧ old.msg ≠ m.msg ∧
        edit = true)) :
    okOut s m = (splitNl m.msg).map
        (renderLine edit s.loginNick (getIRCChannelName room) m.username) ∧
    (okOut s m).length = m.msg.count '\n' + 1 := by
  have hout : okOut s m = (splitNl m.msg).map
      (renderLine edit s.loginNick (getIRCChannelName room) m.username) := by
    rcases hcase with ⟨hf, rfl⟩ | ⟨old, hf, hne, rfl⟩
    · rw [okOut_eq_of (onMessage_new hroom hf)]
    · rw [okOut_eq_of (onMessage_edit hroom hf hne)]
  refine ⟨hout, ?_⟩
  rw [hout, List.length_map, splitNl_length]

/-- C8, instantiated at a concrete two-line message. -/
theorem claim_C8_witness :
    okOut (stateWith []) ⟨str "x1", str "r1", str "line one\nline two", str "bob"⟩ =
      (splitNl (str "line one\nline two")).map
        (renderLine false (str "me") (getIRCChannelName roomC) (str "bob")) ∧
    (okOut (stateWith [])
        ⟨str "x1", str "r1", str "line one\nline two", str "bob"⟩).length =
      (str "line one\nline two").count '\n' + 1 :=
  claim_C8_multiline (stateWith [])
    ⟨str "x1", str "r1", str "line one\nline two", str "bob"⟩ roomC false
    rfl (Or.inl ⟨rfl, rfl⟩)

/-- C9: every `privmsg` line `onMessage` emits is the rendering of one line
`L` of the split message text, and the `(cc: loginNick)` highlight suffix is
appended to its content if and only if `L` contains one of the four
broadcast-mention tokens of `HIGHLIGHT_TERMS` as a case-sensitive
substring; a line containing none of them is emitted without the suffix. -/
theorem claim_C9_highlight_suffix (s : RCState) (m : Message) (o : OutLine)
    (ho : o ∈ okOut s m) :
    ∃ edit L, L ∈ splitNl m.msg ∧
      ((∃ t ∈ HIGHLIGHT_TERMS, ∃ p q, L = p ++ t ++ q) →
        o.content = (if edit = true then editMarker else []) ++ L ++
          ccSuffix s.loginNick) ∧
      (¬(∃ t ∈ HIGHLIGHT_TERMS, ∃ p q, L = p ++ t ++ q) →
        o.content = (if edit = true then editMarker else []) ++ L) := by
  rcases okOut_emit_cases s m with hnil | ⟨edit, room, _, hout⟩
  · rw [hnil] at ho
    cases ho
  · rw [hout] at ho
    rw [List.mem_map] at ho
    obtain ⟨L, hL, rfl⟩ := ho
    refine ⟨edit, L, hL, ?_, ?_⟩
    · intro hterm
      have hh : highlightOf L = true := (highlightOf_iff L).mpr hterm
      simp [renderLine, hh]
    · intro hterm
      have hh : highlightOf L = false := by
        cases hhl : highlightOf L
        · rfl
        · exact absurd ((highlightOf_iff L).mp hhl) hterm
      simp [renderLine, hh]

/-- C9, instantiated at a concrete emitted line containing `@all`. -/
theorem claim_C9_witness :
    ∃ edit L, L ∈ splitNl (str "ping @all") ∧
      ((∃ t ∈ HIGHLIGHT_TERMS, ∃ p q, L = p ++ t ++ q) →
        (⟨str "#general", str "bob", str "ping @all (cc: me)"⟩ : OutLine).content =
          (if edit = true then editMarker else []) ++ L ++ ccSuffix (str "me")) ∧
      (¬(∃ t ∈ HIGHLIGHT_TERMS, ∃ p q, L = p ++ t ++ q) →
        (⟨str "#general", str "bob", str "ping @all (cc: me)"⟩ : OutLine).content =
          (if edit = true then editMarker else []) ++ L) :=
  claim_C9_highlight_suffix (stateWith [])
    ⟨str "x1", str "r1", str "ping @all", str "bob"⟩
    ⟨str "#general", str "bob", str "ping @all (cc: me)"⟩ (by decide)

/-- C10: once `connect()` has run, `disconnect()` leaves the entire state —
including the still-set `client` field — unchanged, so every subsequent
`connect()` call is a pure no-op: it performs no transport action at all
(no connection, no login) and leaves the rooms, user statuses and message
cache exactly as they were.  The instance can never be reconnected after a
disconnect. -/
theorem claim_C10_no_reconnect (s0 : RCState) :
    ((connect s0).1.client = true) ∧
    (disconnect (connect s0).1).1 = (connect s0).1 ∧
    connect (disconnect (connect s0).1).1 = ((disconnect (connect s0).1).1, []) := by
  unfold connect disconnect
  by_cases h : s0.client <;> simp [h]

end RocketChat
